import Mathlib

/-!
Verification of the Microputer CPU emulator (src/Microputer/microputer.c,
microputer.h).  The C code is shallowly embedded: machine bytes and words
are `Nat` with explicit masking/reduction where the C types truncate
(`byte_t` is `unsigned char`, IR and PC are `uint16_t`), the machine state
struct is a Lean structure, and the fetch/dispatch loop is a fuel-indexed
recursive function.  Console output (printf) is I/O and does not affect
machine state; the blocking RDD input is modelled by an explicit input
stream threaded through dispatch.
-/

namespace Microputer

/-! ### Constants (microputer.h and microputer.c) -/

def WORD_SIZE : Nat := 2
def NUM_INSTRUCTIONS : Nat := 8
def NUM_REGISTERS : Nat := 16
def MEM_BYTE_SIZE : Nat := 32
def SUCCESS : Nat := 0
def ERROR : Nat := 1

/-- Max characters per line in the .asm file (microputer.c line 27). -/
def MAX_ASM_LINE_LEN : Nat := 15

/-! ### Machine state (struct microputer_s, microputer.h lines 35-43) -/

/-- The microputer CPU state.  `reg` holds the 16 byte registers, `mem` the
32 memory bytes, `loaded_mem_slots` the count of loaded bytes, `pc` and
`ir` the two 16-bit registers.  The instruction table of the C struct is a
fixed table of function pointers installed by `create_instruction_set`; it
is embedded below as the fixed dispatch functions `instr_handler` and
`instr_disassembler`. -/
structure microputer_t where
  reg : List Nat
  mem : List Nat
  loaded_mem_slots : Nat
  pc : Nat
  ir : Nat
deriving DecidableEq, Repr

/-! ### Bit-field extractors (microputer.c lines 288-370) -/

/-- ldi_extract_instr_args: Ri index (bits 12-9) and immediate (bits 8-1). -/
def ldi_extract_instr_args (instr : Nat) : Nat × Nat :=
  ((instr &&& (0xF <<< 9)) >>> 9, (instr &&& (0xFF <<< 1)) >>> 1)

/-- bit_op_extract_instr_args: op code (bits 15-13, re-read from the same
positions as the outer opcode), then the three 4-bit register fields at
bits 12-9, 8-5 and 4-1. -/
def bit_op_extract_instr_args (instr : Nat) : Nat × Nat × Nat × Nat :=
  ((instr &&& (0b111 <<< 13)) >>> 13,
   (instr &&& (0xF <<< 9)) >>> 9,
   (instr &&& (0xF <<< 5)) >>> 5,
   (instr &&& (0xF <<< 1)) >>> 1)

/-- prt_extract_instr_args: Ri index (bits 12-9). -/
def prt_extract_instr_args (instr : Nat) : Nat :=
  (instr &&& (0xF <<< 9)) >>> 9

/-- rdd_extract_instr_args: Ri index (bits 12-9). -/
def rdd_extract_instr_args (instr : Nat) : Nat :=
  (instr &&& (0xF <<< 9)) >>> 9

/-- blt_extract_instr_args: Ri index (bits 12-9), Rj index (bits 8-5),
and the 5-bit address field (bits 4-0). -/
def blt_extract_instr_args (instr : Nat) : Nat × Nat × Nat :=
  ((instr &&& (0xF <<< 9)) >>> 9,
   (instr &&& (0xF <<< 5)) >>> 5,
   instr &&& 0b11111)

/-! ### Instruction handlers (microputer.c lines 494-654).
Each returns the C result code together with the updated machine. -/

/-- ldi_handler: loads the immediate into the register named by the first
extracted field.  The store through a byte_t pointer truncates mod 256. -/
def ldi_handler (mp : microputer_t) : Nat × microputer_t :=
  let a := ldi_extract_instr_args mp.ir
  (SUCCESS, { mp with reg := mp.reg.set a.1 (a.2 % 256) })

/-- bit_op_handler: re-extracts the opcode from IR, reads the registers
named by the second and third fields, and stores the 8-bit result into the
register named by the last extracted field.  The default case (opcode not
1-4) returns ERROR without touching the state. -/
def bit_op_handler (mp : microputer_t) : Nat × microputer_t :=
  let a := bit_op_extract_instr_args mp.ir
  let ri := mp.reg.getD a.2.1 0
  let rj := mp.reg.getD a.2.2.1 0
  match a.1 with
  | 1 => (SUCCESS, { mp with reg := mp.reg.set a.2.2.2 ((ri + rj) % 256) })
  | 2 => (SUCCESS, { mp with reg := mp.reg.set a.2.2.2 ((ri &&& rj) % 256) })
  | 3 => (SUCCESS, { mp with reg := mp.reg.set a.2.2.2 ((ri ||| rj) % 256) })
  | 4 => (SUCCESS, { mp with reg := mp.reg.set a.2.2.2 ((ri ^^^ rj) % 256) })
  | _ => (ERROR, mp)

/-- prt_handler: prints a register (console I/O only); no state change. -/
def prt_handler (mp : microputer_t) : Nat × microputer_t :=
  (SUCCESS, mp)

/-- rdd_handler: reads an integer from the operator (modelled as the
`input` argument) and stores its low 8 bits into the named register. -/
def rdd_handler (input : Nat) (mp : microputer_t) : Nat × microputer_t :=
  (SUCCESS, { mp with reg := mp.reg.set (rdd_extract_instr_args mp.ir) (input &&& 0x00FF) })

/-- blt_handler: if reg[Ri] < reg[Rj], an odd address field is an error
(state untouched), otherwise PC is set to the address; if the comparison
fails the handler succeeds without touching anything. -/
def blt_handler (mp : microputer_t) : Nat × microputer_t :=
  let a := blt_extract_instr_args mp.ir
  let ri := mp.reg.getD a.1 0
  let rj := mp.reg.getD a.2.1 0
  let addr := a.2.2
  if ri < rj then
    if addr % 2 ≠ 0 then (ERROR, mp)
    else (SUCCESS, { mp with pc := addr })
  else (SUCCESS, mp)

/-! ### Instruction table (create_instruction_set, microputer.c 663-704) -/

/-- The handler half of the instruction table: opcode index 0 is LDI,
1-4 share bit_op_handler, 5 is PRT, 6 is RDD (which consumes one value
from the input stream), 7 is BLT.  The table has exactly
NUM_INSTRUCTIONS = 8 entries and the opcode is a 3-bit field, so the
final catch-all is unreachable in the pipeline. -/
def instr_handler (op_code : Nat) (inputs : List Nat) (mp : microputer_t) :
    Nat × microputer_t × List Nat :=
  match op_code with
  | 0 => let r := ldi_handler mp; (r.1, r.2, inputs)
  | 1 => let r := bit_op_handler mp; (r.1, r.2, inputs)
  | 2 => let r := bit_op_handler mp; (r.1, r.2, inputs)
  | 3 => let r := bit_op_handler mp; (r.1, r.2, inputs)
  | 4 => let r := bit_op_handler mp; (r.1, r.2, inputs)
  | 5 => let r := prt_handler mp; (r.1, r.2, inputs)
  | 6 => let r := rdd_handler (inputs.headD 0) mp; (r.1, r.2, inputs.tail)
  | 7 => let r := blt_handler mp; (r.1, r.2, inputs)
  | _ => (ERROR, mp, inputs)

/-! ### Fetch and the interpreter loop (execute_micro_program, 250-278) -/

/-- The 16-bit big-endian word formed from the two bytes at `idx` and
`idx + 1`: the byte at `idx` supplies the high-order bits.  Out-of-range
reads yield 0, matching the zero-initialised C memory array.  The result
is reduced mod 2^16 as the C value is stored in a uint16_t. -/
def word_at (mem : List Nat) (idx : Nat) : Nat :=
  ((mem.getD idx 0) <<< 8 ||| mem.getD (idx + 1) 0) % 65536

/-- Opcode extraction on the execution path (microputer.c line 262). -/
def exec_op_code (instr : Nat) : Nat :=
  (instr &&& (0b111 <<< 13)) >>> 13

/-- Opcode extraction on the disassembly path (microputer.c line 215). -/
def disasm_op_code (instr : Nat) : Nat :=
  (instr &&& (0b111 <<< 13)) >>> 13

/-- One fetch: load IR big-endian from the bytes at PC and PC+1 and
advance PC by 2 (the two pc++ of lines 260-261; PC is a uint16_t). -/
def fetch (mp : microputer_t) : microputer_t :=
  { mp with ir := word_at mp.mem mp.pc, pc := (mp.pc + 2) % 65536 }

/-- One iteration of the do-while body: fetch, decode the opcode from IR,
dispatch to the handler of the instruction-table entry. -/
def exec_step (inputs : List Nat) (mp : microputer_t) :
    Nat × microputer_t × List Nat :=
  let mp1 := fetch mp
  instr_handler (exec_op_code mp1.ir) inputs mp1

/-- Outcome of running the interpreter loop with bounded fuel; `success`
and `failure` record the final machine and the number of loop iterations
(instruction fetches) performed; `failure` also records the opcode whose
handler returned an error code. -/
inductive ExecOutcome where
  | success (mp : microputer_t) (steps : Nat)
  | failure (mp : microputer_t) (op_code : Nat) (steps : Nat)
  | fuelOut (mp : microputer_t)
deriving DecidableEq, Repr

/-- execute_micro_program: the C do-while loop.  The body (fetch, decode,
dispatch, error check) runs unconditionally at least once; the loop
repeats while pc < loaded_mem_slots, tested after the body. -/
def execute_micro_program : Nat → List Nat → microputer_t → ExecOutcome
  | 0, _, mp => .fuelOut mp
  | fuel + 1, inputs, mp =>
    let step := exec_step inputs mp
    if step.1 = SUCCESS then
      if step.2.1.pc < step.2.1.loaded_mem_slots then
        match execute_micro_program fuel step.2.2 step.2.1 with
        | .success m n => .success m (n + 1)
        | .failure m o n => .failure m o (n + 1)
        | .fuelOut m => .fuelOut m
      else .success step.2.1 1
    else .failure step.2.1 (exec_op_code (fetch mp).ir) 1

/-! ### Disassemblers (microputer.c lines 379-485) -/

/-- snprintf with capacity `cap` writes at most `cap - 1` characters of
the formatted text into the buffer (plus the terminator). -/
def snprintf_trunc (cap : Nat) (s : String) : String :=
  ⟨s.data.take (cap - 1)⟩

/-- ldi_disassembler: formats "LDI R%hu %hu" into a MAX_ASM_LINE_LEN
buffer. -/
def ldi_disassembler (instr : Nat) : String :=
  let a := ldi_extract_instr_args instr
  snprintf_trunc MAX_ASM_LINE_LEN
    ("LDI R" ++ Nat.repr a.1 ++ " " ++ Nat.repr a.2)

/-- bit_op_disassembler: picks the mnemonic from the re-extracted opcode
and formats "%s R%hu R%hu R%hu"; in the default case the C function
returns without writing the buffer, modelled as `none`. -/
def bit_op_disassembler (instr : Nat) : Option String :=
  let a := bit_op_extract_instr_args instr
  let op_name : Option String :=
    match a.1 with
    | 1 => some "ADD"
    | 2 => some "AND"
    | 3 => some "OR"
    | 4 => some "XOR"
    | _ => none
  op_name.map fun nm =>
    snprintf_trunc MAX_ASM_LINE_LEN
      (nm ++ " R" ++ Nat.repr a.2.1 ++ " R" ++ Nat.repr a.2.2.1
          ++ " R" ++ Nat.repr a.2.2.2)

/-- prt_disassembler: formats "PRT R%hu". -/
def prt_disassembler (instr : Nat) : String :=
  snprintf_trunc MAX_ASM_LINE_LEN ("PRT R" ++ Nat.repr (prt_extract_instr_args instr))

/-- rdd_disassembler: formats "RDD R%hu". -/
def rdd_disassembler (instr : Nat) : String :=
  snprintf_trunc MAX_ASM_LINE_LEN ("RDD R" ++ Nat.repr (rdd_extract_instr_args instr))

/-- blt_disassembler: formats "BLT R%hu R%hu %hu". -/
def blt_disassembler (instr : Nat) : String :=
  let a := blt_extract_instr_args instr
  snprintf_trunc MAX_ASM_LINE_LEN
    ("BLT R" ++ Nat.repr a.1 ++ " R" ++ Nat.repr a.2.1 ++ " " ++ Nat.repr a.2.2)

/-- The disassembler half of the instruction table installed by
create_instruction_set; `none` for an index outside the 8 populated
entries (unreachable from a 3-bit opcode). -/
def instr_disassembler (op_code instr : Nat) : Option String :=
  match op_code with
  | 0 => some (ldi_disassembler instr)
  | 1 => bit_op_disassembler instr
  | 2 => bit_op_disassembler instr
  | 3 => bit_op_disassembler instr
  | 4 => bit_op_disassembler instr
  | 5 => some (prt_disassembler instr)
  | 6 => some (rdd_disassembler instr)
  | 7 => some (blt_disassembler instr)
  | _ => none

/-! ### Listing production (disassemble_micro_program lines 177-245 and
write_assembly_file lines 122-170) -/

/-- The buffer line written for word k of the image: disassemble_micro_
program pairs the bytes at 2k and 2k+1 into a uint16_t word on every odd
counter and calls the table entry of its opcode, storing the text at
buffer index counter / 2 = k. -/
def asm_buffer_line (mem : List Nat) (k : Nat) : String :=
  (instr_disassembler (disasm_op_code (word_at mem (2 * k))) (word_at mem (2 * k))).getD ""

/-- The assembly buffer after the load loop of disassemble_micro_program
has consumed `loaded` bytes: one line per full word, counter / 2 lines. -/
def asm_buffer (mem : List Nat) (loaded : Nat) : List String :=
  (List.range (loaded / 2)).map (asm_buffer_line mem)

/-- The address preface written for buffer line i:
snprintf( mem_num, 5, "%d: ", i * 2 ). -/
def mem_addr_preface (i : Nat) : String :=
  snprintf_trunc 5 (Nat.repr (i * 2) ++ ": ")

/-- write_assembly_file: for each buffer line i (i < lines) write the
address preface then the line, and a line-break character only when
i < lines - 1.  Embedded as recursion over the list of the first `lines`
buffer entries with the running index `i`. -/
def write_assembly_file (i : Nat) : List String → String
  | [] => ""
  | [b] => mem_addr_preface i ++ b
  | b :: b2 :: rest => mem_addr_preface i ++ b ++ "\n" ++ write_assembly_file (i + 1) (b2 :: rest)

/-- The full listing text produced for a memory image with `loaded`
bytes read: disassemble_micro_program hands the buffer and counter / 2
to write_assembly_file. -/
def listing_output (mem : List Nat) (loaded : Nat) : String :=
  write_assembly_file 0 (asm_buffer mem loaded)

/-- Modelled from the spec (section 4.3 and section 8): the canonical
form of a listing whose consecutive lines are separated by a single
line-break and which has no trailing separator after the final line.
Used to compare the loop-produced listing against the spec's wording. -/
def spec_joined_lines : List String → String
  | [] => ""
  | [l] => l
  | l :: l2 :: rest => l ++ "\n" ++ spec_joined_lines (l2 :: rest)

/-- The individual lines write_assembly_file emits (address preface
followed by the buffer text), before they are joined with separators. -/
def render_lines (i : Nat) : List String → List String
  | [] => []
  | b :: rest => (mem_addr_preface i ++ b) :: render_lines (i + 1) rest

/-! ### Concrete machines used in the closed statements below -/

def zeros16 : List Nat := [0, 0, 0, 0, 0, 0, 0, 0, 0, 0, 0, 0, 0, 0, 0, 0]

/-- A machine whose image had 0 bytes (loaded size 0), as after loading
an empty file: memory all zero, PC 0. -/
def mpEmpty : microputer_t :=
  { reg := zeros16, mem := List.replicate 32 0, loaded_mem_slots := 0, pc := 0, ir := 0 }

/-- The machine `mpEmpty` becomes after the do-while body has run once:
word 0 was fetched (LDI R0 0) and PC advanced to 2. -/
def mpEmptyFinal : microputer_t :=
  { reg := zeros16, mem := List.replicate 32 0, loaded_mem_slots := 0, pc := 2, ir := 0 }

/-- A 4-byte image whose second word is a taken backward branch:
word 0 is ADD R0 R1 R0 (0x2020), word 2 is BLT R0 R2 0 (0xE040);
registers R1 = 1 and R2 = 3 make the branch taken until R0 reaches 3. -/
def mpBranchLoop : microputer_t :=
  { reg := [0, 1, 3, 0, 0, 0, 0, 0, 0, 0, 0, 0, 0, 0, 0, 0],
    mem := [32, 32, 224, 64] ++ List.replicate 28 0,
    loaded_mem_slots := 4, pc := 0, ir := 0 }

/-- Final state of running `mpBranchLoop`: R0 has been incremented to 3,
PC has reached the loaded size 4 after six fetches. -/
def mpBranchLoopFinal : microputer_t :=
  { reg := [3, 1, 3, 0, 0, 0, 0, 0, 0, 0, 0, 0, 0, 0, 0, 0],
    mem := [32, 32, 224, 64] ++ List.replicate 28 0,
    loaded_mem_slots := 4, pc := 4, ir := 57408 }

/-- A 2-byte image holding one taken BLT whose address field is 30
(even, in range for the 5-bit field) while only 2 bytes are loaded:
word 0 is BLT R0 R1 30 (0xE03E) and R1 = 1 > R0 = 0. -/
def mpHighJump : microputer_t :=
  { reg := [0, 1, 0, 0, 0, 0, 0, 0, 0, 0, 0, 0, 0, 0, 0, 0],
    mem := [224, 62] ++ List.replicate 30 0,
    loaded_mem_slots := 2, pc := 0, ir := 0 }

/-- Final state of running `mpHighJump`: the taken branch wrote 30 into
PC although the loaded size is only 2. -/
def mpHighJumpFinal : microputer_t :=
  { reg := [0, 1, 0, 0, 0, 0, 0, 0, 0, 0, 0, 0, 0, 0, 0, 0],
    mem := [224, 62] ++ List.replicate 30 0,
    loaded_mem_slots := 2, pc := 30, ir := 57406 }

/-- A machine mid-dispatch whose IR holds BLT R0 R0 1 (odd address
field) with the branch condition false (R0 = R0). -/
def mpOddNotTaken : microputer_t :=
  { reg := zeros16, mem := List.replicate 32 0, loaded_mem_slots := 4, pc := 2, ir := 57345 }

/-- A machine mid-dispatch whose IR holds BLT R0 R1 1 (odd address
field) with the branch condition true (R0 = 0 < R1 = 1). -/
def mpOddTaken : microputer_t :=
  { reg := [0, 1, 0, 0, 0, 0, 0, 0, 0, 0, 0, 0, 0, 0, 0, 0],
    mem := List.replicate 32 0, loaded_mem_slots := 4, pc := 2, ir := 57377 }

/-- A machine mid-dispatch whose IR holds BLT R0 R1 4 (even address)
with R0 = 1 < R1 = 5: the branch is taken. -/
def mpBltTaken : microputer_t :=
  { reg := [1, 5, 0, 0, 0, 0, 0, 0, 0, 0, 0, 0, 0, 0, 0, 0],
    mem := List.replicate 32 0, loaded_mem_slots := 8, pc := 2, ir := 57380 }

/-- A machine mid-dispatch whose IR holds BLT R0 R1 4 (even address)
with R0 = 5 ≥ R1 = 1: the branch is not taken. -/
def mpBltNotTaken : microputer_t :=
  { reg := [5, 1, 0, 0, 0, 0, 0, 0, 0, 0, 0, 0, 0, 0, 0, 0],
    mem := List.replicate 32 0, loaded_mem_slots := 8, pc := 2, ir := 57380 }

/-- A machine mid-dispatch whose IR holds ADD R0 R1 R2 (0x2024) with
R0 = 250 and R1 = 10: the 8-bit sum wraps around to 4. -/
def mpAddWrap : microputer_t :=
  { reg := [250, 10, 0, 0, 0, 0, 0, 0, 0, 0, 0, 0, 0, 0, 0, 0],
    mem := List.replicate 32 0, loaded_mem_slots := 4, pc := 2, ir := 8228 }

/-- A machine about to fetch the word 0x1234 stored big-endian at PC 0. -/
def mpFetch : microputer_t :=
  { reg := zeros16, mem := [18, 52] ++ List.replicate 30 0,
    loaded_mem_slots := 2, pc := 0, ir := 0 }

/-- A 4-byte image of two LDI R0 0 words (all zero bytes). -/
def mpTwoLdi : microputer_t :=
  { reg := zeros16, mem := List.replicate 32 0, loaded_mem_slots := 4, pc := 0, ir := 0 }

/-! ### Helper lemmas: bit-level extraction as arithmetic -/

lemma and_shiftLeft_shiftRight (w m lo : Nat) :
    (w &&& (m <<< lo)) >>> lo = (w >>> lo) &&& m := by
  apply Nat.eq_of_testBit_eq
  intro i
  simp only [Nat.testBit_shiftRight, Nat.testBit_and, Nat.testBit_shiftLeft,
    ge_iff_le, Nat.le_add_right, decide_True, Bool.true_and,
    Nat.add_sub_cancel_left]

lemma mask_field_eq (w lo k : Nat) :
    (w &&& ((2 ^ k - 1) <<< lo)) >>> lo = w / 2 ^ lo % 2 ^ k := by
  rw [and_shiftLeft_shiftRight, Nat.and_pow_two_sub_one_eq_mod,
    Nat.shiftRight_eq_div_pow]

lemma mask_nibble_eq (w lo : Nat) :
    (w &&& (0xF <<< lo)) >>> lo = w / 2 ^ lo % 16 := by
  have h := mask_field_eq w lo 4
  norm_num at h ⊢
  exact h

lemma op_code_field_eq (w : Nat) :
    (w &&& (0b111 <<< 13)) >>> 13 = w / 8192 % 8 := by
  have h := mask_field_eq w 13 3
  norm_num at h ⊢
  exact h

lemma exec_op_code_eq (w : Nat) : exec_op_code w = w / 8192 % 8 :=
  op_code_field_eq w

lemma exec_op_code_lt (w : Nat) : exec_op_code w < 8 := by
  rw [exec_op_code_eq]
  exact Nat.mod_lt _ (by norm_num)

lemma and_31_eq (w : Nat) : w &&& 0b11111 = w % 32 := by
  have h := Nat.and_pow_two_sub_one_eq_mod w 5
  norm_num at h ⊢
  exact h

lemma or_shiftRight_distrib (x y n : Nat) :
    (x ||| y) >>> n = (x >>> n) ||| (y >>> n) := by
  apply Nat.eq_of_testBit_eq
  intro i
  simp [Nat.testBit_shiftRight, Nat.testBit_or]

lemma or_mod_two_pow (x y n : Nat) :
    (x ||| y) % 2 ^ n = (x % 2 ^ n) ||| (y % 2 ^ n) := by
  apply Nat.eq_of_testBit_eq
  intro i
  simp only [Nat.testBit_mod_two_pow, Nat.testBit_or]
  cases Nat.decLt i n with
  | isTrue h => simp [h]
  | isFalse h => simp [h]

/-- The big-endian combination of two bytes equals hi * 256 + lo. -/
lemma shiftLeft_or_eq_add (hi lo : Nat) (h : lo < 256) :
    hi <<< 8 ||| lo = hi * 256 + lo := by
  have hx : (hi <<< 8 ||| lo) % 256 = lo := by
    have h256 : (256 : Nat) = 2 ^ 8 := by norm_num
    rw [h256, or_mod_two_pow, Nat.shiftLeft_eq]
    norm_num [Nat.mul_mod_left, Nat.mod_eq_of_lt h]
  have hy : (hi <<< 8 ||| lo) >>> 8 = hi := by
    rw [or_shiftRight_distrib, Nat.shiftLeft_eq, Nat.shiftRight_eq_div_pow,
      Nat.shiftRight_eq_div_pow]
    norm_num [Nat.mul_div_cancel hi (show 0 < 256 by norm_num),
      Nat.div_eq_of_lt h]
  have hdm := Nat.div_add_mod (hi <<< 8 ||| lo) 256
  have h8 : (hi <<< 8 ||| lo) / 256 = hi := by
    have := hy
    rwa [Nat.shiftRight_eq_div_pow] at this
  omega

/-! ### Helper lemmas: lists -/

lemma getD_set_ne (l : List Nat) (i j v : Nat) (h : j ≠ i) :
    (l.set i v).getD j 0 = l.getD j 0 := by
  rw [List.getD_eq_getElem?_getD, List.getD_eq_getElem?_getD,
    List.getElem?_set_ne (fun hij => h hij.symm)]

lemma getD_lt_256 (l : List Nat) (i : Nat) (h : ∀ b ∈ l, b < 256) :
    l.getD i 0 < 256 := by
  rw [List.getD_eq_getElem?_getD]
  cases hg : l[i]? with
  | none => norm_num
  | some b =>
    have hb : b ∈ l := List.getElem?_mem hg
    simpa using h b hb

/-! ### Helper lemmas: handler shapes and frame conditions -/

lemma bit_op_handler_shape (mp : microputer_t) :
    (∃ v, bit_op_handler mp =
      (SUCCESS, { mp with reg := mp.reg.set ((bit_op_extract_instr_args mp.ir).2.2.2) v })) ∨
    bit_op_handler mp = (ERROR, mp) := by
  simp only [bit_op_handler]
  split
  · exact Or.inl ⟨_, rfl⟩
  · exact Or.inl ⟨_, rfl⟩
  · exact Or.inl ⟨_, rfl⟩
  · exact Or.inl ⟨_, rfl⟩
  · exact Or.inr rfl

lemma blt_handler_shape (mp : microputer_t) :
    blt_handler mp = (SUCCESS, mp) ∨ blt_handler mp = (ERROR, mp) ∨
    blt_handler mp = (SUCCESS, { mp with pc := mp.ir % 32 }) := by
  simp only [blt_handler]
  rw [show (blt_extract_instr_args mp.ir).2.2 = mp.ir % 32 from and_31_eq mp.ir]
  split
  · split
    · exact Or.inr (Or.inl rfl)
    · exact Or.inr (Or.inr rfl)
  · exact Or.inl rfl

/-- Every instruction-table handler leaves memory, the loaded-size
counter and the register-list length unchanged. -/
lemma instr_handler_frame (op_code : Nat) (inputs : List Nat) (mp : microputer_t) :
    (instr_handler op_code inputs mp).2.1.mem = mp.mem ∧
    (instr_handler op_code inputs mp).2.1.loaded_mem_slots = mp.loaded_mem_slots ∧
    (instr_handler op_code inputs mp).2.1.ir = mp.ir := by
  have hbit : ∀ mp2 : microputer_t,
      (bit_op_handler mp2).2.mem = mp2.mem ∧
      (bit_op_handler mp2).2.loaded_mem_slots = mp2.loaded_mem_slots ∧
      (bit_op_handler mp2).2.ir = mp2.ir := by
    intro mp2
    rcases bit_op_handler_shape mp2 with ⟨v, hv⟩ | hv <;> rw [hv]
    · exact ⟨rfl, rfl, rfl⟩
    · exact ⟨rfl, rfl, rfl⟩
  have hblt : (blt_handler mp).2.mem = mp.mem ∧
      (blt_handler mp).2.loaded_mem_slots = mp.loaded_mem_slots ∧
      (blt_handler mp).2.ir = mp.ir := by
    rcases blt_handler_shape mp with hv | hv | hv <;> rw [hv]
    · exact ⟨rfl, rfl, rfl⟩
    · exact ⟨rfl, rfl, rfl⟩
    · exact ⟨rfl, rfl, rfl⟩
  match op_code with
  | 0 => exact ⟨rfl, rfl, rfl⟩
  | 1 => exact hbit mp
  | 2 => exact hbit mp
  | 3 => exact hbit mp
  | 4 => exact hbit mp
  | 5 => exact ⟨rfl, rfl, rfl⟩
  | 6 => exact ⟨rfl, rfl, rfl⟩
  | 7 => exact hblt
  | n + 8 => exact ⟨rfl, rfl, rfl⟩

/-- Every handler except BLT leaves the program counter unchanged. -/
lemma instr_handler_pc (op_code : Nat) (inputs : List Nat) (mp : microputer_t)
    (h : op_code ≠ 7) :
    (instr_handler op_code inputs mp).2.1.pc = mp.pc := by
  have hbit : ∀ mp2 : microputer_t, (bit_op_handler mp2).2.pc = mp2.pc := by
    intro mp2
    rcases bit_op_handler_shape mp2 with ⟨v, hv⟩ | hv <;> rw [hv]
  match op_code with
  | 0 => rfl
  | 1 => exact hbit mp
  | 2 => exact hbit mp
  | 3 => exact hbit mp
  | 4 => exact hbit mp
  | 5 => rfl
  | 6 => rfl
  | 7 => exact absurd rfl h
  | n + 8 => rfl

/-- When the dispatched opcode is the opcode decoded from IR and it is
not BLT, the handler reports SUCCESS. -/
lemma instr_handler_success (inputs : List Nat) (mp : microputer_t)
    (h : exec_op_code mp.ir ≠ 7) :
    (instr_handler (exec_op_code mp.ir) inputs mp).1 = SUCCESS := by
  have hlt := exec_op_code_lt mp.ir
  have hop : (bit_op_extract_instr_args mp.ir).1 = exec_op_code mp.ir := rfl
  rcases e : exec_op_code mp.ir with _ | _ | _ | _ | _ | _ | _ | _ | n
  · rfl
  · simp only [instr_handler, bit_op_handler, hop.trans e]
  · simp only [instr_handler, bit_op_handler, hop.trans e]
  · simp only [instr_handler, bit_op_handler, hop.trans e]
  · simp only [instr_handler, bit_op_handler, hop.trans e]
  · rfl
  · rfl
  · exact absurd e h
  · rw [e] at hlt; omega

/-! ### Helper lemmas: the interpreter loop -/

lemma exec_step_eq (inputs : List Nat) (mp : microputer_t) :
    exec_step inputs mp =
      instr_handler (exec_op_code (fetch mp).ir) inputs (fetch mp) := rfl

lemma exec_step_mem (inputs : List Nat) (mp : microputer_t) :
    (exec_step inputs mp).2.1.mem = mp.mem :=
  (instr_handler_frame (exec_op_code (fetch mp).ir) inputs (fetch mp)).1

lemma exec_step_loaded (inputs : List Nat) (mp : microputer_t) :
    (exec_step inputs mp).2.1.loaded_mem_slots = mp.loaded_mem_slots :=
  (instr_handler_frame (exec_op_code (fetch mp).ir) inputs (fetch mp)).2.1

/-- Any state predicate preserved by the loop body holds of the machine a
successful run ends in. -/
lemma exec_preserves (P : microputer_t → Prop)
    (hstep : ∀ inputs mp, P mp → P (exec_step inputs mp).2.1) :
    ∀ (fuel : Nat) (inputs : List Nat) (mp m : microputer_t) (n : Nat),
      P mp → execute_micro_program fuel inputs mp = .success m n → P m := by
  intro fuel
  induction fuel with
  | zero =>
    intro inputs mp m n _ h
    simp [execute_micro_program] at h
  | succ f ih =>
    intro inputs mp m n hP h
    simp only [execute_micro_program] at h
    by_cases h1 : (exec_step inputs mp).1 = SUCCESS
    · rw [if_pos h1] at h
      by_cases h2 :
          (exec_step inputs mp).2.1.pc < (exec_step inputs mp).2.1.loaded_mem_slots
      · rw [if_pos h2] at h
        cases hr : execute_micro_program f (exec_step inputs mp).2.2 (exec_step inputs mp).2.1 with
        | success m' n' =>
          rw [hr] at h
          cases h
          exact ih _ _ _ _ (hstep inputs mp hP) hr
        | failure m' o n' => rw [hr] at h; cases h
        | fuelOut m' => rw [hr] at h; cases h
      · rw [if_neg h2] at h
        cases h
        exact hstep inputs mp hP
    · rw [if_neg h1] at h
      cases h

/-- A successful run performs at least one iteration (do-while) and ends
with PC at or beyond the loaded size. -/
lemma exec_success_halt :
    ∀ (fuel : Nat) (inputs : List Nat) (mp m : microputer_t) (n : Nat),
      execute_micro_program fuel inputs mp = .success m n →
      m.loaded_mem_slots ≤ m.pc ∧ 1 ≤ n := by
  intro fuel
  induction fuel with
  | zero =>
    intro inputs mp m n h
    simp [execute_micro_program] at h
  | succ f ih =>
    intro inputs mp m n h
    simp only [execute_micro_program] at h
    by_cases h1 : (exec_step inputs mp).1 = SUCCESS
    · rw [if_pos h1] at h
      by_cases h2 :
          (exec_step inputs mp).2.1.pc < (exec_step inputs mp).2.1.loaded_mem_slots
      · rw [if_pos h2] at h
        cases hr : execute_micro_program f (exec_step inputs mp).2.2 (exec_step inputs mp).2.1 with
        | success m' n' =>
          rw [hr] at h
          cases h
          obtain ⟨ha, hb⟩ := ih _ _ _ _ hr
          exact ⟨ha, by omega⟩
        | failure m' o n' => rw [hr] at h; cases h
        | fuelOut m' => rw [hr] at h; cases h
      · rw [if_neg h2] at h
        cases h
        exact ⟨Nat.le_of_not_lt h2, le_refl 1⟩
    · rw [if_neg h1] at h
      cases h

/-- With 4 loaded bytes, PC at 0 and neither word a BLT, the run fetches
exactly two instructions and halts with PC = 4. -/
lemma exec_two_steps (inputs : List Nat) (mp : microputer_t)
    (hpc : mp.pc = 0) (hL : mp.loaded_mem_slots = 4)
    (h0 : exec_op_code (word_at mp.mem 0) ≠ 7)
    (h2 : exec_op_code (word_at mp.mem 2) ≠ 7)
    (fuel : Nat) (hf : 2 ≤ fuel) :
    ∃ m, execute_micro_program fuel inputs mp = .success m 2 ∧ m.pc = 4 := by
  obtain ⟨f, rfl⟩ : ∃ f, fuel = f + 2 := ⟨fuel - 2, by omega⟩
  have hfir : (fetch mp).ir = word_at mp.mem 0 := by rw [fetch, hpc]
  have hfpc : (fetch mp).pc = 2 := by rw [fetch, hpc]
  have hop1 : exec_op_code (fetch mp).ir ≠ 7 := by rw [hfir]; exact h0
  have hsucc1 : (exec_step inputs mp).1 = SUCCESS := by
    rw [exec_step_eq]; exact instr_handler_success inputs (fetch mp) hop1
  have hpc1 : (exec_step inputs mp).2.1.pc = 2 := by
    rw [exec_step_eq, instr_handler_pc _ _ _ hop1, hfpc]
  have hmem1 : (exec_step inputs mp).2.1.mem = mp.mem := exec_step_mem inputs mp
  have hld1 : (exec_step inputs mp).2.1.loaded_mem_slots = 4 := by
    rw [exec_step_loaded]; exact hL
  set ins2 := (exec_step inputs mp).2.2 with hins2
  set s1 := (exec_step inputs mp).2.1 with hs1
  have hfir2 : (fetch s1).ir = word_at mp.mem 2 := by rw [fetch, hpc1, hmem1]
  have hfpc2 : (fetch s1).pc = 4 := by rw [fetch, hpc1]
  have hop2 : exec_op_code (fetch s1).ir ≠ 7 := by rw [hfir2]; exact h2
  have hsucc2 : (exec_step ins2 s1).1 = SUCCESS := by
    rw [exec_step_eq]; exact instr_handler_success ins2 (fetch s1) hop2
  have hpc2 : (exec_step ins2 s1).2.1.pc = 4 := by
    rw [exec_step_eq, instr_handler_pc _ _ _ hop2, hfpc2]
  have hld2 : (exec_step ins2 s1).2.1.loaded_mem_slots = 4 := by
    rw [exec_step_loaded]; exact hld1
  refine ⟨(exec_step ins2 s1).2.1, ?_, hpc2⟩
  simp only [execute_micro_program]
  rw [if_pos hsucc1, if_pos (by rw [← hs1, hpc1, hld1]; omega), ← hins2, ← hs1,
    if_pos hsucc2, if_neg (by rw [hpc2, hld2]; omega)]

lemma fetch_pc_even (mp : microputer_t) (h : mp.pc % 2 = 0) :
    (fetch mp).pc % 2 = 0 := by
  have hd : (2 : Nat) ∣ 65536 := by norm_num
  show (mp.pc + 2) % 65536 % 2 = 0
  rw [Nat.mod_mod_of_dvd _ hd]
  omega

lemma blt_handler_pc_even (mp : microputer_t) (h : mp.pc % 2 = 0) :
    (blt_handler mp).2.pc % 2 = 0 := by
  simp only [blt_handler]
  split
  · split
    · simpa using h
    · rename_i heven
      simpa using Nat.eq_zero_of_not_pos (by omega : ¬0 < (blt_extract_instr_args mp.ir).2.2 % 2)
  · simpa using h

/-- One loop body preserves evenness of PC. -/
lemma exec_step_pc_even (inputs : List Nat) (mp : microputer_t)
    (h : mp.pc % 2 = 0) : (exec_step inputs mp).2.1.pc % 2 = 0 := by
  have hfp : (fetch mp).pc % 2 = 0 := fetch_pc_even mp h
  by_cases hop : exec_op_code (fetch mp).ir = 7
  · rw [exec_step_eq, hop]
    exact blt_handler_pc_even (fetch mp) hfp
  · rw [exec_step_eq, instr_handler_pc _ _ _ hop]
    exact hfp

/-! ### Helper lemmas: decoded fields as arithmetic -/

lemma mask_byte_eq (w lo : Nat) :
    (w &&& (0xFF <<< lo)) >>> lo = w / 2 ^ lo % 256 := by
  have h := mask_field_eq w lo 8
  norm_num at h ⊢
  exact h

lemma ldi_fields (w : Nat) :
    ldi_extract_instr_args w = (w / 512 % 16, w / 2 % 256) := by
  unfold ldi_extract_instr_args
  rw [mask_nibble_eq, mask_byte_eq]
  norm_num

lemma bit_op_fields (w : Nat) :
    bit_op_extract_instr_args w =
      (w / 8192 % 8, w / 512 % 16, w / 32 % 16, w / 2 % 16) := by
  unfold bit_op_extract_instr_args
  rw [op_code_field_eq, mask_nibble_eq, mask_nibble_eq, mask_nibble_eq]
  norm_num

lemma prt_fields (w : Nat) : prt_extract_instr_args w = w / 512 % 16 := by
  unfold prt_extract_instr_args
  rw [mask_nibble_eq]
  norm_num

lemma rdd_fields (w : Nat) : rdd_extract_instr_args w = w / 512 % 16 := by
  unfold rdd_extract_instr_args
  rw [mask_nibble_eq]
  norm_num

lemma blt_fields (w : Nat) :
    blt_extract_instr_args w = (w / 512 % 16, w / 32 % 16, w % 32) := by
  unfold blt_extract_instr_args
  rw [mask_nibble_eq, mask_nibble_eq, and_31_eq]
  norm_num

/-! ### Helper lemmas: characters of the produced text -/

set_option maxRecDepth 10000 in
lemma repr_no_newline : ∀ n, n < 256 → '\n' ∉ (Nat.repr n).data := by
  decide

lemma no_newline_append (s t : String) (hs : '\n' ∉ s.data)
    (ht : '\n' ∉ t.data) : '\n' ∉ (s ++ t).data := by
  rw [String.data_append]
  intro hm
  rcases List.mem_append.mp hm with h | h
  · exact hs h
  · exact ht h

lemma snprintf_trunc_no_newline (cap : Nat) (s : String)
    (h : '\n' ∉ s.data) : '\n' ∉ (snprintf_trunc cap s).data := by
  intro hm
  exact h (List.mem_of_mem_take hm)

lemma snprintf_trunc_length (cap : Nat) (s : String) :
    (snprintf_trunc cap s).length ≤ cap - 1 := by
  show (s.data.take (cap - 1)).length ≤ cap - 1
  rw [List.length_take]
  exact min_le_left _ _

lemma nibble_lt_256 (w lo : Nat) : (w &&& (0xF <<< lo)) >>> lo < 256 := by
  rw [mask_nibble_eq]
  exact lt_trans (Nat.mod_lt _ (by norm_num)) (by norm_num)

lemma ldi_disassembler_no_newline (w : Nat) :
    '\n' ∉ (ldi_disassembler w).data := by
  apply snprintf_trunc_no_newline
  apply no_newline_append
  apply no_newline_append
  apply no_newline_append
  · decide
  · exact repr_no_newline _ (nibble_lt_256 w 9)
  · decide
  · refine repr_no_newline _ ?_
    rw [show (ldi_extract_instr_args w).2 = w / 2 % 256 by rw [ldi_fields]]
    exact Nat.mod_lt _ (by norm_num)

lemma bit_op_disassembler_no_newline (w : Nat) (s : String)
    (h : bit_op_disassembler w = some s) : '\n' ∉ s.data := by
  have hparts : ∀ nm : String, '\n' ∉ nm.data →
      '\n' ∉ (snprintf_trunc MAX_ASM_LINE_LEN
        (nm ++ " R" ++ Nat.repr (bit_op_extract_instr_args w).2.1
            ++ " R" ++ Nat.repr (bit_op_extract_instr_args w).2.2.1
            ++ " R" ++ Nat.repr (bit_op_extract_instr_args w).2.2.2)).data := by
    intro nm hnm
    apply snprintf_trunc_no_newline
    apply no_newline_append
    apply no_newline_append
    apply no_newline_append
    apply no_newline_append
    apply no_newline_append
    apply no_newline_append
    · exact hnm
    · decide
    · exact repr_no_newline _ (nibble_lt_256 w 9)
    · decide
    · exact repr_no_newline _ (nibble_lt_256 w 5)
    · decide
    · exact repr_no_newline _ (nibble_lt_256 w 1)
  simp only [bit_op_disassembler] at h
  split at h
  · cases h; exact hparts "ADD" (by decide)
  · cases h; exact hparts "AND" (by decide)
  · cases h; exact hparts "OR" (by decide)
  · cases h; exact hparts "XOR" (by decide)
  · cases h

lemma prt_disassembler_no_newline (w : Nat) :
    '\n' ∉ (prt_disassembler w).data := by
  apply snprintf_trunc_no_newline
  apply no_newline_append
  · decide
  · refine repr_no_newline _ ?_
    rw [prt_fields]
    exact lt_trans (Nat.mod_lt _ (by norm_num)) (by norm_num)

lemma rdd_disassembler_no_newline (w : Nat) :
    '\n' ∉ (rdd_disassembler w).data := by
  apply snprintf_trunc_no_newline
  apply no_newline_append
  · decide
  · refine repr_no_newline _ ?_
    rw [rdd_fields]
    exact lt_trans (Nat.mod_lt _ (by norm_num)) (by norm_num)

lemma blt_disassembler_no_newline (w : Nat) :
    '\n' ∉ (blt_disassembler w).data := by
  apply snprintf_trunc_no_newline
  apply no_newline_append
  apply no_newline_append
  apply no_newline_append
  apply no_newline_append
  apply no_newline_append
  · decide
  · exact repr_no_newline _ (nibble_lt_256 w 9)
  · decide
  · exact repr_no_newline _ (nibble_lt_256 w 5)
  · decide
  · refine repr_no_newline _ ?_
    rw [show (blt_extract_instr_args w).2.2 = w % 32 by rw [blt_fields]]
    exact lt_trans (Nat.mod_lt _ (by norm_num)) (by norm_num)

lemma instr_disassembler_no_newline (op w : Nat) (s : String)
    (h : instr_disassembler op w = some s) : '\n' ∉ s.data := by
  match op, h with
  | 0, h => cases h; exact ldi_disassembler_no_newline w
  | 1, h => exact bit_op_disassembler_no_newline w s h
  | 2, h => exact bit_op_disassembler_no_newline w s h
  | 3, h => exact bit_op_disassembler_no_newline w s h
  | 4, h => exact bit_op_disassembler_no_newline w s h
  | 5, h => cases h; exact prt_disassembler_no_newline w
  | 6, h => cases h; exact rdd_disassembler_no_newline w
  | 7, h => cases h; exact blt_disassembler_no_newline w

lemma asm_buffer_line_no_newline (mem : List Nat) (k : Nat) :
    '\n' ∉ (asm_buffer_line mem k).data := by
  unfold asm_buffer_line
  cases h : instr_disassembler (disasm_op_code (word_at mem (2 * k))) (word_at mem (2 * k)) with
  | none => simp
  | some s =>
    rw [Option.getD_some]
    exact instr_disassembler_no_newline _ _ s h

lemma mem_addr_preface_eq : ∀ i, i < 16 →
    mem_addr_preface i = Nat.repr (i * 2) ++ ": " := by
  decide

lemma mem_addr_preface_no_newline : ∀ i, i < 16 →
    '\n' ∉ (mem_addr_preface i).data := by
  decide

/-! ### Helper lemmas: listing structure -/

lemma waf_eq_joined (bufs : List String) : ∀ i : Nat,
    write_assembly_file i bufs = spec_joined_lines (render_lines i bufs) := by
  induction bufs with
  | nil => intro i; rfl
  | cons b rest ih =>
    intro i
    cases rest with
    | nil => rfl
    | cons b2 r2 =>
      simp only [write_assembly_file, render_lines, spec_joined_lines]
      rw [ih (i + 1)]
      simp only [render_lines]

lemma render_lines_length (bufs : List String) : ∀ i : Nat,
    (render_lines i bufs).length = bufs.length := by
  induction bufs with
  | nil => intro i; rfl
  | cons b rest ih =>
    intro i
    simp only [render_lines, List.length_cons, ih (i + 1)]

lemma render_lines_getD (bufs : List String) : ∀ (i k : Nat), k < bufs.length →
    (render_lines i bufs).getD k "" = mem_addr_preface (i + k) ++ bufs.getD k "" := by
  induction bufs with
  | nil =>
    intro i k hk
    simp at hk
  | cons b rest ih =>
    intro i k hk
    cases k with
    | zero => rfl
    | succ k2 =>
      simp only [render_lines, List.getD_cons_succ]
      rw [ih (i + 1) k2 (by simpa using Nat.lt_of_succ_lt_succ hk)]
      congr 2
      omega

lemma render_lines_no_newline (bufs : List String) : ∀ i : Nat,
    (∀ b ∈ bufs, '\n' ∉ b.data) → i + bufs.length ≤ 16 →
    ∀ l ∈ render_lines i bufs, '\n' ∉ l.data := by
  induction bufs with
  | nil =>
    intro i _ _ l hl
    simp [render_lines] at hl
  | cons b rest ih =>
    intro i hb hlen l hl
    simp only [render_lines, List.mem_cons] at hl
    rcases hl with rfl | hl
    · apply no_newline_append
      · exact mem_addr_preface_no_newline i (by simp at hlen; omega)
      · exact hb b (List.mem_cons_self b rest)
    · exact ih (i + 1) (fun x hx => hb x (List.mem_cons_of_mem b hx))
        (by simp at hlen ⊢; omega) l hl

lemma spec_joined_lines_count (ls : List String) :
    (∀ l ∈ ls, '\n' ∉ l.data) → ls ≠ [] →
    (spec_joined_lines ls).data.count '\n' = ls.length - 1 := by
  induction ls with
  | nil => intro _ h; exact absurd rfl h
  | cons l rest ih =>
    intro hnl _
    cases rest with
    | nil =>
      simp only [spec_joined_lines, List.length_cons, List.length_nil]
      rw [List.count_eq_zero]
      exact hnl l (List.mem_cons_self l [])
    | cons l2 r2 =>
      simp only [spec_joined_lines]
      rw [String.data_append, String.data_append, List.count_append, List.count_append]
      have h0 : l.data.count '\n' = 0 :=
        List.count_eq_zero.mpr (hnl l (List.mem_cons_self l (l2 :: r2)))
      have h1 : ("\n" : String).data.count '\n' = 1 := by decide
      have h2 : (spec_joined_lines (l2 :: r2)).data.count '\n' = (l2 :: r2).length - 1 :=
        ih (fun x hx => hnl x (List.mem_cons_of_mem l hx)) (by simp)
      rw [h0, h1, h2]
      simp only [List.length_cons]
      omega

lemma asm_buffer_length (mem : List Nat) (L : Nat) :
    (asm_buffer mem L).length = L / 2 := by
  simp [asm_buffer]

lemma asm_buffer_getD (mem : List Nat) (L k : Nat) (h : k < L / 2) :
    (asm_buffer mem L).getD k "" = asm_buffer_line mem k := by
  unfold asm_buffer
  rw [List.getD_eq_getElem?_getD, List.getElem?_map, List.getElem?_range h]
  rfl

lemma asm_buffer_no_newline (mem : List Nat) (L : Nat) :
    ∀ b ∈ asm_buffer mem L, '\n' ∉ b.data := by
  intro b hb
  obtain ⟨k, _, rfl⟩ := List.mem_map.mp hb
  exact asm_buffer_line_no_newline mem k

/-! ### Shared lemma for the BLT misalignment behaviour -/

lemma blt_odd_taken_error (mp : microputer_t)
    (hodd : mp.ir % 32 % 2 = 1)
    (htaken : mp.reg.getD (mp.ir / 512 % 16) 0 < mp.reg.getD (mp.ir / 32 % 16) 0) :
    blt_handler mp = (ERROR, mp) := by
  simp only [blt_handler, blt_fields mp.ir]
  rw [if_pos htaken, if_pos (by omega)]

/-! ### The claims -/

/-- C1 (corrected): a BLT instruction whose 5-bit address field is odd
fails with the misaligned-branch-target error only when the branch is
taken (reg[Ri] < reg[Rj]); in that case the handler returns the error
code and leaves the machine — in particular the already-advanced PC —
completely untouched.  (As stated, the claim is false: with the branch
condition false an odd address field is never examined and the handler
succeeds; see the counterexample.) -/
theorem C1_blt_odd_taken_fails (mp : microputer_t)
    (hodd : mp.ir % 32 % 2 = 1)
    (htaken : mp.reg.getD (mp.ir / 512 % 16) 0 < mp.reg.getD (mp.ir / 32 % 16) 0) :
    blt_handler mp = (ERROR, mp) :=
  blt_odd_taken_error mp hodd htaken

/-- C1 counterexample: a BLT word with odd address field 1 whose branch
condition is false (R0 = R0) executes successfully — it does not fail
with a misaligned-branch-target error as the claim demands of every odd
address field. -/
theorem C1_counterexample :
    blt_handler mpOddNotTaken = (SUCCESS, mpOddNotTaken)
  ∧ mpOddNotTaken.ir % 32 % 2 = 1
  ∧ SUCCESS ≠ ERROR := by
  decide

/-- C1 witness: the amended theorem applied to a taken BLT with odd
address field 1. -/
theorem C1_witness : blt_handler mpOddTaken = (ERROR, mpOddTaken) :=
  C1_blt_odd_taken_fails mpOddTaken (by decide) (by decide)

/-- C2 (corrected): the loop halts exactly when PC ≥ loaded size, but the
test sits at the end of a do-while body, so every run — even one with
loaded size 0 — performs at least one instruction fetch; a successful run
ends with PC ≥ loaded size (which the body leaves unchanged); with a
4-byte image, PC 0 and no BLT word, exactly 2 instructions are fetched;
and a taken branch to a target still below the loaded size continues
execution until PC ≥ loaded size, as in the concrete run of
`mpBranchLoop` (six fetches, final PC 4). -/
theorem C2_halt_condition :
    (∀ (fuel : Nat) (inputs : List Nat) (mp m : microputer_t) (n : Nat),
        execute_micro_program fuel inputs mp = ExecOutcome.success m n →
        m.loaded_mem_slots ≤ m.pc ∧ 1 ≤ n ∧
        m.loaded_mem_slots = mp.loaded_mem_slots)
  ∧ (∀ (inputs : List Nat) (mp : microputer_t) (fuel : Nat),
        mp.pc = 0 → mp.loaded_mem_slots = 4 →
        exec_op_code (word_at mp.mem 0) ≠ 7 →
        exec_op_code (word_at mp.mem 2) ≠ 7 → 2 ≤ fuel →
        ∃ m, execute_micro_program fuel inputs mp = ExecOutcome.success m 2 ∧ m.pc = 4)
  ∧ execute_micro_program 10 [] mpBranchLoop = ExecOutcome.success mpBranchLoopFinal 6
  ∧ mpBranchLoopFinal.pc = 4 ∧ mpBranchLoopFinal.loaded_mem_slots = 4 := by
  refine ⟨?_, ?_, by decide, by decide, by decide⟩
  · intro fuel inputs mp m n h
    obtain ⟨h1, h2⟩ := exec_success_halt fuel inputs mp m n h
    refine ⟨h1, h2, ?_⟩
    exact exec_preserves (fun x => x.loaded_mem_slots = mp.loaded_mem_slots)
      (fun ins mp2 hP => by
        show (exec_step ins mp2).2.1.loaded_mem_slots = mp.loaded_mem_slots
        rw [exec_step_loaded]; exact hP)
      fuel inputs mp m n rfl h
  · intro inputs mp fuel h1 h2 h3 h4 h5
    exact exec_two_steps inputs mp h1 h2 h3 h4 fuel h5

/-- C2 counterexample: with loaded size 0 the do-while loop still fetches
and executes one instruction before the termination test, refuting "with
L = 0 no instruction is executed". -/
theorem C2_counterexample :
    execute_micro_program 1 [] mpEmpty = ExecOutcome.success mpEmptyFinal 1
  ∧ mpEmpty.loaded_mem_slots = 0 := by
  decide

/-- C2 witness: the two-fetch part applied to a 4-byte all-zero image. -/
theorem C2_witness :
    ∃ m, execute_micro_program 2 [] mpTwoLdi = ExecOutcome.success m 2 ∧ m.pc = 4 :=
  C2_halt_condition.2.1 [] mpTwoLdi 2 rfl rfl (by decide) (by decide) (by omega)

/-- C3 (confirmed): for each opcode 1-4 dispatched through the table the
destination is the register named by the last-extracted 4-bit field
(bits 4-1); it receives reg[Ri] op reg[Rj] with Ri taken from bits 12-9
and Rj from bits 8-5; ADD is 8-bit wraparound, AND/OR/XOR bitwise; the
handler reports SUCCESS in all four cases; and concretely 250 + 10
produces 4 mod 256 with no error. -/
theorem C3_bit_op_semantics :
    (∀ mp : microputer_t,
      (mp.ir / 8192 = 1 → bit_op_handler mp =
        (SUCCESS, { mp with reg := mp.reg.set (mp.ir / 2 % 16) ((mp.reg.getD (mp.ir / 512 % 16) 0 + mp.reg.getD (mp.ir / 32 % 16) 0) % 256) })) ∧
      (mp.ir / 8192 = 2 → bit_op_handler mp =
        (SUCCESS, { mp with reg := mp.reg.set (mp.ir / 2 % 16) ((mp.reg.getD (mp.ir / 512 % 16) 0 &&& mp.reg.getD (mp.ir / 32 % 16) 0) % 256) })) ∧
      (mp.ir / 8192 = 3 → bit_op_handler mp =
        (SUCCESS, { mp with reg := mp.reg.set (mp.ir / 2 % 16) ((mp.reg.getD (mp.ir / 512 % 16) 0 ||| mp.reg.getD (mp.ir / 32 % 16) 0) % 256) })) ∧
      (mp.ir / 8192 = 4 → bit_op_handler mp =
        (SUCCESS, { mp with reg := mp.reg.set (mp.ir / 2 % 16) ((mp.reg.getD (mp.ir / 512 % 16) 0 ^^^ mp.reg.getD (mp.ir / 32 % 16) 0) % 256) })))
  ∧ bit_op_handler mpAddWrap = (SUCCESS, { mpAddWrap with reg := mpAddWrap.reg.set 2 4 })
  ∧ mpAddWrap.reg.getD 0 0 = 250 ∧ mpAddWrap.reg.getD 1 0 = 10 := by
  refine ⟨?_, by decide, by decide, by decide⟩
  intro mp
  refine ⟨?_, ?_, ?_, ?_⟩ <;> intro hc <;>
    simp [bit_op_handler, bit_op_fields mp.ir, hc]

/-- C3 witness: the ADD equation applied to the wraparound machine. -/
theorem C3_witness :
    bit_op_handler mpAddWrap =
      (SUCCESS, { mpAddWrap with reg := mpAddWrap.reg.set (mpAddWrap.ir / 2 % 16) ((mpAddWrap.reg.getD (mpAddWrap.ir / 512 % 16) 0 + mpAddWrap.reg.getD (mpAddWrap.ir / 32 % 16) 0) % 256) }) :=
  (C3_bit_op_semantics.1 mpAddWrap).1 (by decide)

/-- C4 (confirmed): a BLT with even address field succeeds in both
directions: when reg[Ri] < reg[Rj] the handler sets PC to exactly the
address field (the byte offset itself, not an index times 2), and when
reg[Ri] ≥ reg[Rj] it leaves the whole machine, in particular the
already-advanced PC, unchanged. -/
theorem C4_blt_even_semantics (mp : microputer_t) (heven : mp.ir % 32 % 2 = 0) :
    (mp.reg.getD (mp.ir / 512 % 16) 0 < mp.reg.getD (mp.ir / 32 % 16) 0 →
      blt_handler mp = (SUCCESS, { mp with pc := mp.ir % 32 }))
  ∧ (mp.reg.getD (mp.ir / 32 % 16) 0 ≤ mp.reg.getD (mp.ir / 512 % 16) 0 →
      blt_handler mp = (SUCCESS, mp)) := by
  constructor
  · intro htaken
    simp only [blt_handler, blt_fields mp.ir]
    rw [if_pos htaken, if_neg (by omega)]
  · intro hnot
    simp only [blt_handler, blt_fields mp.ir]
    rw [if_neg (by omega)]

/-- C4 witness: the taken direction lands on PC = 4 (the address field of
0xE024, not 2), and the not-taken direction leaves the machine as is. -/
theorem C4_witness :
    blt_handler mpBltTaken = (SUCCESS, { mpBltTaken with pc := mpBltTaken.ir % 32 })
  ∧ blt_handler mpBltNotTaken = (SUCCESS, mpBltNotTaken) :=
  ⟨(C4_blt_even_semantics mpBltTaken (by decide)).1 (by decide),
   (C4_blt_even_semantics mpBltNotTaken (by decide)).2 (by decide)⟩

/-- C5 (confirmed): each iteration loads IR big-endian from the bytes at
PC and PC + 1 (byte at PC is the high-order byte) and advances PC by 2
before dispatch, so the dispatched handler observes the already-advanced
PC. -/
theorem C5_fetch_big_endian (inputs : List Nat) (mp : microputer_t)
    (hmem : ∀ b ∈ mp.mem, b < 256) (hpc : mp.pc + 2 < 65536) :
    (fetch mp).ir = mp.mem.getD mp.pc 0 * 256 + mp.mem.getD (mp.pc + 1) 0
  ∧ (fetch mp).pc = mp.pc + 2
  ∧ exec_step inputs mp = instr_handler (exec_op_code (fetch mp).ir) inputs (fetch mp) := by
  refine ⟨?_, Nat.mod_eq_of_lt hpc, rfl⟩
  show word_at mp.mem mp.pc = _
  unfold word_at
  have hhi := getD_lt_256 mp.mem mp.pc hmem
  have hlo := getD_lt_256 mp.mem (mp.pc + 1) hmem
  rw [shiftLeft_or_eq_add _ _ hlo]
  exact Nat.mod_eq_of_lt (by omega)

/-- C5 witness: fetching 0x1234 stored as bytes 18, 52. -/
theorem C5_witness :
    (fetch mpFetch).ir =
      mpFetch.mem.getD mpFetch.pc 0 * 256 + mpFetch.mem.getD (mpFetch.pc + 1) 0 :=
  (C5_fetch_big_endian [] mpFetch (by decide) (by decide)).1

/-- C6 (confirmed): the opcode computed on the disassembly path equals
the opcode computed on the execution path, both equal bits 15-13 of the
word, and the common value indexes one of the 8 instruction-table
entries. -/
theorem C6_opcode_paths_agree (w : Nat) :
    disasm_op_code w = exec_op_code w
  ∧ exec_op_code w = w / 8192 % 8
  ∧ disasm_op_code w < NUM_INSTRUCTIONS :=
  ⟨rfl, exec_op_code_eq w, exec_op_code_lt w⟩

/-- C7 (corrected): evenness of PC is a real invariant — the loop body
turns an even PC into an even PC (ordinary fetch adds 2; every non-branch
handler leaves PC alone), a successful run started at an even PC ends at
an even PC, and a taken branch with odd target is rejected as an error
without writing PC; but the even value a taken branch writes is only
bounded by the 5-bit field (at most 30), not by the loaded size — the
handler never compares the target against the loaded size (see the
counterexample). -/
theorem C7_pc_even_invariant :
    (∀ (inputs : List Nat) (mp : microputer_t),
        mp.pc % 2 = 0 → (exec_step inputs mp).2.1.pc % 2 = 0)
  ∧ (∀ (fuel : Nat) (inputs : List Nat) (mp m : microputer_t) (n : Nat),
        mp.pc % 2 = 0 →
        execute_micro_program fuel inputs mp = ExecOutcome.success m n →
        m.pc % 2 = 0)
  ∧ (∀ mp : microputer_t, mp.ir % 32 % 2 = 1 →
        mp.reg.getD (mp.ir / 512 % 16) 0 < mp.reg.getD (mp.ir / 32 % 16) 0 →
        blt_handler mp = (ERROR, mp))
  ∧ (∀ mp : microputer_t, (blt_handler mp).2.pc = mp.pc ∨
        ((blt_handler mp).2.pc % 2 = 0 ∧ (blt_handler mp).2.pc ≤ 30)) := by
  refine ⟨exec_step_pc_even, ?_, blt_odd_taken_error, ?_⟩
  · intro fuel inputs mp m n h0 h
    exact exec_preserves (fun x => x.pc % 2 = 0)
      (fun ins mp2 hP => exec_step_pc_even ins mp2 hP) fuel inputs mp m n h0 h
  · intro mp
    have h31 : mp.ir % 32 < 32 := Nat.mod_lt _ (by norm_num)
    simp only [blt_handler, blt_fields mp.ir]
    split
    · split
      · left; rfl
      · rename_i heven
        right
        constructor
        · simpa using (by omega : mp.ir % 32 % 2 = 0)
        · simpa using (by omega : mp.ir % 32 ≤ 30)
    · left; rfl

/-- C7 counterexample: a successful taken branch writes PC = 30 on a
machine whose loaded size is only 2, refuting "a taken branch only ever
sets PC to an even value that is at most the loaded size". -/
theorem C7_counterexample :
    execute_micro_program 5 [] mpHighJump = ExecOutcome.success mpHighJumpFinal 1
  ∧ mpHighJumpFinal.pc = 30
  ∧ mpHighJumpFinal.loaded_mem_slots = 2
  ∧ ¬(mpHighJumpFinal.pc ≤ mpHighJumpFinal.loaded_mem_slots) := by
  decide

/-- C7 witness: one loop body keeps PC even on a concrete machine. -/
theorem C7_witness : (exec_step [] mpEmpty).2.1.pc % 2 = 0 :=
  C7_pc_even_invariant.1 [] mpEmpty (by decide)

/-- C8 (confirmed): no execute behaviour writes to memory or to the
loaded-size counter; every handler changes at most one register (the
destination of LDI, the destination register of the four bit operations,
the destination of RDD), and the PRT and BLT handlers change no register
at all. -/
theorem C8_handler_frame :
    ∀ (op_code : Nat) (inputs : List Nat) (mp : microputer_t),
      (instr_handler op_code inputs mp).2.1.mem = mp.mem
    ∧ (instr_handler op_code inputs mp).2.1.loaded_mem_slots = mp.loaded_mem_slots
    ∧ (∃ i, ∀ j, j ≠ i →
        (instr_handler op_code inputs mp).2.1.reg.getD j 0 = mp.reg.getD j 0)
    ∧ (op_code = 5 → (instr_handler op_code inputs mp).2.1.reg = mp.reg)
    ∧ (op_code = 7 → (instr_handler op_code inputs mp).2.1.reg = mp.reg) := by
  intro op_code inputs mp
  refine ⟨(instr_handler_frame op_code inputs mp).1,
          (instr_handler_frame op_code inputs mp).2.1, ?_⟩
  have hbit : ∃ i, ∀ j, j ≠ i →
      ((bit_op_handler mp).2).reg.getD j 0 = mp.reg.getD j 0 := by
    rcases bit_op_handler_shape mp with ⟨v, hv⟩ | hv
    · exact ⟨(bit_op_extract_instr_args mp.ir).2.2.2,
        fun j hj => by rw [hv]; exact getD_set_ne _ _ _ _ hj⟩
    · exact ⟨0, fun j hj => by rw [hv]⟩
  have hblt : (blt_handler mp).2.reg = mp.reg := by
    rcases blt_handler_shape mp with hv | hv | hv <;> rw [hv]
  rcases op_code with _ | _ | _ | _ | _ | _ | _ | _ | n
  · exact ⟨⟨(ldi_extract_instr_args mp.ir).1, fun j hj => getD_set_ne _ _ _ _ hj⟩,
      fun h => absurd h (by decide), fun h => absurd h (by decide)⟩
  · exact ⟨hbit, fun h => absurd h (by decide), fun h => absurd h (by decide)⟩
  · exact ⟨hbit, fun h => absurd h (by decide), fun h => absurd h (by decide)⟩
  · exact ⟨hbit, fun h => absurd h (by decide), fun h => absurd h (by decide)⟩
  · exact ⟨hbit, fun h => absurd h (by decide), fun h => absurd h (by decide)⟩
  · exact ⟨⟨0, fun j hj => rfl⟩, fun _ => rfl, fun h => absurd h (by decide)⟩
  · exact ⟨⟨rdd_extract_instr_args mp.ir, fun j hj => getD_set_ne _ _ _ _ hj⟩,
      fun h => absurd h (by decide), fun h => absurd h (by decide)⟩
  · exact ⟨⟨0, fun j hj => congrArg (fun l => l.getD j 0) hblt⟩,
      fun h => absurd h (by decide), fun _ => hblt⟩
  · exact ⟨⟨0, fun j hj => rfl⟩, fun h => by omega, fun h => by omega⟩

/-- C8 witness: the PRT entry leaves the register file unchanged on a
concrete machine. -/
theorem C8_witness : (instr_handler 5 [] mpEmpty).2.1.reg = mpEmpty.reg :=
  (C8_handler_frame 5 [] mpEmpty).2.2.2.1 rfl

/-- C9 (confirmed): for a machine with loaded size L the listing has
exactly L / 2 lines; the line for word k carries the decimal byte
address 2k followed by ": "; and the loop output coincides with the
canonical join of those lines by single line-break separators with
nothing after the final line — witnessed also by the exact line-break
count L / 2 - 1 (each line itself being free of line breaks). -/
theorem C9_listing_format (mem : List Nat) (L : Nat) (hL : L ≤ 32) :
    (asm_buffer mem L).length = L / 2
  ∧ listing_output mem L = spec_joined_lines (render_lines 0 (asm_buffer mem L))
  ∧ (∀ k, k < L / 2 →
      (render_lines 0 (asm_buffer mem L)).getD k "" =
        Nat.repr (2 * k) ++ ": " ++ asm_buffer_line mem k)
  ∧ (2 ≤ L → (listing_output mem L).data.count '\n' = L / 2 - 1) := by
  have hlen := asm_buffer_length mem L
  refine ⟨hlen, waf_eq_joined _ 0, ?_, ?_⟩
  · intro k hk
    have hk16 : k < 16 := by omega
    rw [render_lines_getD _ 0 k (by rw [hlen]; exact hk), Nat.zero_add,
      mem_addr_preface_eq k hk16, asm_buffer_getD mem L k hk, Nat.mul_comm k 2]
  · intro h2
    have hnl : ∀ l ∈ render_lines 0 (asm_buffer mem L), '\n' ∉ l.data := by
      apply render_lines_no_newline _ 0 (asm_buffer_no_newline mem L)
      rw [hlen]
      omega
    have hne : render_lines 0 (asm_buffer mem L) ≠ [] := by
      have hrl := render_lines_length (asm_buffer mem L) 0
      rw [hlen] at hrl
      intro hemp
      rw [hemp] at hrl
      simp at hrl
      omega
    show (write_assembly_file 0 (asm_buffer mem L)).data.count '\n' = L / 2 - 1
    rw [waf_eq_joined _ 0, spec_joined_lines_count _ hnl hne,
      render_lines_length, hlen]

/-- C9 witness: the property applied to the 4-byte image of
`mpBranchLoop` (an ADD word and a BLT word). -/
theorem C9_witness :
    (asm_buffer ([32, 32, 224, 64] ++ List.replicate 28 0) 4).length = 4 / 2 :=
  (C9_listing_format ([32, 32, 224, 64] ++ List.replicate 28 0) 4 (by norm_num)).1

/-- C10 (confirmed): every mnemonic line an instruction-table
disassembler produces fits MAX_ASM_LINE_LEN - 1 = 14 characters plus
terminator; the three-register word 13688 (ADD R10 R11 R12), whose full
rendering is 15 characters, is silently truncated to "ADD R10 R11 R1"
and still reported as a produced line, not as an error. -/
theorem C10_disasm_line_truncation :
    (∀ (op_code instr : Nat) (s : String),
        instr_disassembler op_code instr = some s →
        s.length ≤ MAX_ASM_LINE_LEN - 1)
  ∧ instr_disassembler 1 13688 = some "ADD R10 R11 R1"
  ∧ MAX_ASM_LINE_LEN - 1 <
      ("ADD" ++ " R" ++ Nat.repr ((bit_op_extract_instr_args 13688).2.1)
            ++ " R" ++ Nat.repr ((bit_op_extract_instr_args 13688).2.2.1)
            ++ " R" ++ Nat.repr ((bit_op_extract_instr_args 13688).2.2.2)).length := by
  have hbit : ∀ (w : Nat) (s : String), bit_op_disassembler w = some s →
      s.length ≤ MAX_ASM_LINE_LEN - 1 := by
    intro w s h
    simp only [bit_op_disassembler] at h
    split at h
    · cases h; exact snprintf_trunc_length _ _
    · cases h; exact snprintf_trunc_length _ _
    · cases h; exact snprintf_trunc_length _ _
    · cases h; exact snprintf_trunc_length _ _
    · cases h
  refine ⟨?_, by decide, by decide⟩
  intro op w s h
  match op, h with
  | 0, h => cases h; exact snprintf_trunc_length _ _
  | 1, h => exact hbit w s h
  | 2, h => exact hbit w s h
  | 3, h => exact hbit w s h
  | 4, h => exact hbit w s h
  | 5, h => cases h; exact snprintf_trunc_length _ _
  | 6, h => cases h; exact snprintf_trunc_length _ _
  | 7, h => cases h; exact snprintf_trunc_length _ _

/-- C10 witness: the bound applied to the line the table produces for
the word 0 (LDI R0 0). -/
theorem C10_witness : ("LDI R0 0" : String).length ≤ MAX_ASM_LINE_LEN - 1 :=
  C10_disasm_line_truncation.1 0 0 "LDI R0 0" (by decide)

end Microputer
